import Mathlib

/-
Verification of the BarentsSeaTransects core (src/core.py).

The development shallowly embeds the algorithmic parts of `core.py`:
the month-bounds helper `__create_month_dt`, the nearest-neighbour
longitude selection used by `plot_transects` / `plot_ice_extent`, the
percentile colour-scale helper `__colourmap_limits`, the target-axis
construction and zero masking of `__regrid_ORCA`, the `haversine`
great-circle distance, and the per-month ice-extent accumulation loop
of `plot_ice_extent`.  Floating-point values are embedded as rationals
(for coordinate/bookkeeping arithmetic) or reals (for trigonometric
distance computation); NaN-able cell values are embedded as `Option`.
-/

/-- Calendar-free date/time record: the fields of both `datetime.datetime`
and `cftime.Datetime360Day` that `__create_month_dt` constructs (minutes,
seconds and microseconds are always zero there and are omitted). -/
structure SimpleDT where
  year : Int
  month : Nat
  day : Nat
  hour : Nat
deriving DecidableEq, Repr

instance : Inhabited SimpleDT := ⟨⟨0, 0, 0, 0⟩⟩

/-- Calendar system tag: ordinary Gregorian `datetime` versus the fixed
360-day (30-day-month) `cftime.Datetime360Day` used when `ORCA` is true. -/
inductive CalKind where
  | gregorian
  | day360
deriving DecidableEq, Repr

/-- A date/time together with the calendar system it is expressed in. -/
structure CalDT where
  kind : CalKind
  dt : SimpleDT
deriving DecidableEq, Repr

/-- Strict lexicographic order on (year, month, day, hour): the order in
which both `datetime` and `cftime.Datetime360Day` compare instants whose
smaller fields are zero. -/
def dtLTb (a b : SimpleDT) : Bool :=
  decide (a.year < b.year) ||
    (decide (a.year = b.year) &&
      (decide (a.month < b.month) ||
        (decide (a.month = b.month) &&
          (decide (a.day < b.day) ||
            (decide (a.day = b.day) && decide (a.hour < b.hour))))))

/-- Non-strict version of `dtLTb`. -/
def dtLEb (a b : SimpleDT) : Bool :=
  dtLTb a b || decide (a = b)

/-- The twelve English month names recognised by `strptime` with format
string percent-B (the names accepted by `__create_month_dt`). -/
def month_names : List String :=
  ["January", "February", "March", "April", "May", "June",
   "July", "August", "September", "October", "November", "December"]

/-- Month name to month number (1..12); `none` models the `ValueError`
raised by `strptime` on an unrecognised name. -/
def monthNumber (m : String) : Option Nat :=
  (month_names.findIdx? (fun s => s == m)).map (fun i => i + 1)

/-- One calendar month after a date, keeping the day-of-month: the effect
of `dateutil.relativedelta(months=+1)` on a day-1 instant (day 1 exists in
every month, so relativedelta's end-of-month clamping never fires here). -/
def addOneMonth (d : SimpleDT) : SimpleDT :=
  if d.month ≥ 12 then ⟨d.year + 1, 1, d.day, d.hour⟩
  else ⟨d.year, d.month + 1, d.day, d.hour⟩

/-- Embedding of `ModelEntry.__create_month_dt` (src/core.py:332-346):
parse the month name and year into the first instant of that month, add
one calendar month, and, when `orca` is true, re-express both instants as
`cftime.Datetime360Day` values with the same (year, month, day, hour)
numerals. -/
def create_month_dt (m : String) (year : Int) (orca : Bool) : Option (CalDT × CalDT) :=
  (monthNumber m).map (fun mm =>
    let s : SimpleDT := ⟨year, mm, 1, 0⟩
    let e : SimpleDT := addOneMonth s
    if orca then (⟨CalKind.day360, s⟩, ⟨CalKind.day360, e⟩)
    else (⟨CalKind.gregorian, s⟩, ⟨CalKind.gregorian, e⟩))

/-- Absolute value on ℚ, written with an explicit branch so concrete
instances evaluate by unfolding. -/
def qabs (q : ℚ) : ℚ := if q < 0 then -q else q

/-- Modelled from the spec (§4.4) and the documented semantics of the
external call `ds_var.longitude.sel(longitude=x, method='nearest')`
(src/core.py:103 and 172), whose implementation lives in xarray, not in
this repository: the index of the coordinate value closest to `x`,
earliest index winning ties; `none` on an empty coordinate axis. -/
def nearestIdx (coords : List ℚ) (x : ℚ) : Option Nat :=
  match coords with
  | [] => none
  | _ :: _ => some ((List.range coords.length).foldl
      (fun best i =>
        if qabs (coords.getD i 0 - x) < qabs (coords.getD best 0 - x) then i
        else best) 0)

/-- Value-level nearest-neighbour longitude selection: the coordinate
value whose index `nearestIdx` picks. -/
def selNearest (coords : List ℚ) (x : ℚ) : Option ℚ :=
  (nearestIdx coords x).map (fun i => coords.getD i 0)

/-- Embedding of `ds_var.where(ds_var != 0)` (src/core.py:287 and 314) on
the flattened cell values of a variable: every exact-zero cell becomes
missing (`none`, the NaN of this embedding); NaN cells stay NaN because
`NaN != 0` holds in the source. -/
def mask_zero (xs : List (Option ℚ)) : List (Option ℚ) :=
  xs.map (fun v => if v = some 0 then none else v)

/-- Value-level embedding of `ModelEntry.__regrid_ORCA`
(src/core.py:272-315): zero-mask the input cells, apply the external
bilinear interpolation (xesmf regridding plus the float64 cast, abstracted
here as an arbitrary cell-list transformation `interp`), then zero-mask
the interpolated cells again before returning. -/
def regrid_ORCA_values (interp : List (Option ℚ) → List (Option ℚ))
    (xs : List (Option ℚ)) : List (Option ℚ) :=
  mask_zero (interp (mask_zero xs))

/-- Minimum of a list of rationals (numpy `min` over a nonempty array;
the `[]` case is never reached by the embedded call sites). -/
def listMin : List ℚ → ℚ
  | [] => 0
  | x :: xs => xs.foldl min x

/-- Maximum of a list of rationals. -/
def listMax : List ℚ → ℚ
  | [] => 0
  | x :: xs => xs.foldl max x

/-- The input values sorted ascending, as numpy's percentile machinery
sorts them internally. -/
def sortedVals (xs : List ℚ) : List ℚ := xs.insertionSort (· ≤ ·)

/-- Linear interpolation into a sorted sample at fractional position
`pos`: value `a[i] + (pos - i) * (a[i+1] - a[i])` with `i = ⌊pos⌋`,
numpy's default (linear) percentile interpolation.  Out-of-range accesses
fall back so that the `i + 1 = length` case (reached only with zero
fractional part) contributes nothing. -/
def interpAt (s : List ℚ) (pos : ℚ) : ℚ :=
  let i : Nat := ⌊pos⌋.toNat
  let a := s.getD i 0
  let b := s.getD (i + 1) a
  a + (pos - (i : ℚ)) * (b - a)

/-- The q-th percentile (0 ≤ q ≤ 100) of a nonempty sorted sample `s`,
at fractional position `q * (length - 1) / 100`. -/
def percentileSorted (q : ℚ) (s : List ℚ) : ℚ :=
  interpAt s (q * ((s.length : ℚ) - 1) / 100)

/-- Embedding of `np.nanpercentile(values, q)` with numpy's default
linear interpolation (the implementation lives in numpy, outside this
repository): drop the missing entries, sort, and interpolate; an all-NaN
input yields NaN, embedded as `none`. -/
def nanpercentile (q : ℚ) (xs : List (Option ℚ)) : Option ℚ :=
  match xs.filterMap id with
  | [] => none
  | v :: vs => some (percentileSorted q (sortedVals (v :: vs)))

/-- Embedding of `ModelEntry.__colourmap_limits` (src/core.py:317-330):
`return max_valid_vals, min_valid_vals`, i.e. the 95th percentile first
and the 5th percentile second; an all-NaN input gives the NaN pair,
embedded as `none`. -/
def colourmap_limits (xs : List (Option ℚ)) : Option (ℚ × ℚ) :=
  match nanpercentile 95 xs, nanpercentile 5 xs with
  | some hi, some lo => some (hi, lo)
  | _, _ => none

/-- Embedding of `np.linspace(lo, hi, n)` (exact arithmetic): `n` evenly
spaced points from `lo` to `hi` inclusive; `n = 1` gives `[lo]` and
`n = 0` gives the empty list, as in numpy. -/
def linspace (lo hi : ℚ) (n : Nat) : List ℚ :=
  match n with
  | 0 => []
  | 1 => [lo]
  | Nat.succ (Nat.succ k) =>
      (List.range (k + 2)).map
        (fun i : Nat => lo + (i : ℚ) * (hi - lo) / ((k + 1 : Nat) : ℚ))

/-- Embedding of the target-axis construction of `__regrid_ORCA`
(src/core.py:288-294): point count `int((max - min) / resolution)`
(truncation of a non-negative value, hence a floor), then
`np.linspace(min, max, count)`. -/
def regrid_axis (coords : List ℚ) (res : ℚ) : List ℚ :=
  let lo := listMin coords
  let hi := listMax coords
  let n : Nat := (⌊(hi - lo) / res⌋).toNat
  linspace lo hi n

/-- Embedding of `ModelEntry.haversine` (src/core.py:227-243): distance
in km between two points on a sphere of radius 6371.0 km, via
`np.radians` conversion and the haversine formula. -/
noncomputable def haversine (lon1 lat1 lon2 lat2 : ℝ) : ℝ :=
  let R : ℝ := 6371.0
  let lon1r := lon1 * (Real.pi / 180)
  let lat1r := lat1 * (Real.pi / 180)
  let lon2r := lon2 * (Real.pi / 180)
  let lat2r := lat2 * (Real.pi / 180)
  let dlon := lon2r - lon1r
  let dlat := lat2r - lat1r
  let a := Real.sin (dlat / 2) ^ 2 +
    Real.cos lat1r * Real.cos lat2r * Real.sin (dlon / 2) ^ 2
  let c := 2 * Real.arcsin (Real.sqrt a)
  R * c

/-- Embedding of the per-month accumulation loop of `plot_ice_extent`
(src/core.py:184-193): starting from `extent_km = 0.0`, for every index
`k` below `len(ice) - 1`, when `ice[k] > threshold` add the haversine
distance between `(lon, lat[k])` and `(lon, lat[k+1])`. -/
noncomputable def extent_km (lon : ℝ) (ice lat : List ℝ) (threshold : ℝ) : ℝ :=
  (List.range (ice.length - 1)).foldl
    (fun acc k =>
      if ice.getD k 0 > threshold then
        acc + haversine lon (lat.getD k 0) lon (lat.getD (k + 1) 0)
      else acc) 0

/-- Embedding of the frozen `Extent` value (src/core.py:18-24). -/
structure Extent where
  north : ℚ
  south : ℚ
  east : ℚ
  west : ℚ
  year : Int
deriving DecidableEq, Repr

/-- Failure outcomes of the plotting endpoints that the embedded
fragments can reach: the longitude precondition `assert` on entry
(spec name `OutOfExtentLongitude`) and an unparsable month name. -/
inductive PlotErr where
  | outOfExtentLongitude
  | invalidMonthName
deriving DecidableEq, Repr

/-- Hardcoded latitude window start from `__process_datasets`
(src/core.py:267). -/
def latitude_start_slice : ℚ := 69.5

/-- Hardcoded latitude window end from `__process_datasets`
(src/core.py:268). -/
def latitude_end_slice : ℚ := 80

/-- The ice/concentration dataset as `plot_ice_extent` sees it after
opening: longitude and latitude coordinate axes, a time axis expressed in
one calendar, and a cell value for every (longitude index, time index,
latitude index) triple. -/
structure IceDataset where
  lons : List ℚ
  lats : List ℚ
  calendar : CalKind
  times : List SimpleDT
  conc : Nat → Nat → Nat → ℝ

/-- Modelled from the spec (§4.4) and xarray's documented label-slice
semantics for `time=slice(month_dt, next_month_dt)` (src/core.py:176):
indices of the time steps lying inclusively between the two bounds; a
calendar mismatch between the bounds and the axis selects nothing
(spec §4.1). -/
def timeWindowIdxs (ds : IceDataset) (s e : CalDT) : List Nat :=
  if s.kind = ds.calendar ∧ e.kind = ds.calendar then
    (List.range ds.times.length).filter (fun ti =>
      dtLEb s.dt (ds.times.getD ti default) && dtLEb (ds.times.getD ti default) e.dt)
  else []

/-- Modelled from xarray's documented label-slice semantics for
`latitude=slice(69.5, 80)` (src/core.py:175) over an ascending latitude
axis: indices of the latitudes inside the inclusive window. -/
def latWindowIdxs (ds : IceDataset) : List Nat :=
  (List.range ds.lats.length).filter (fun k =>
    decide (latitude_start_slice ≤ ds.lats.getD k 0) &&
      decide (ds.lats.getD k 0 ≤ latitude_end_slice))

/-- One month of the `plot_ice_extent` loop body (src/core.py:168-193):
month bounds from `__create_month_dt`, nearest-neighbour longitude
selection, the three-way slice, then the accumulation loop over
`ice[0]` — the concentration row at the *first* time index of the
monthly window.  `none` embeds the failure cases: an invalid month name,
an empty longitude axis, and the `IndexError` that `ice[0]` raises on an
empty monthly time window. -/
noncomputable def monthExtent (ds : IceDataset) (year : Int) (orca : Bool)
    (m : String) (lon : ℚ) (threshold : ℝ) : Option ℝ :=
  match create_month_dt m year orca, nearestIdx ds.lons lon with
  | some (s, e), some li =>
    let tIdxs := timeWindowIdxs ds s e
    let latIdxs := latWindowIdxs ds
    let lat : List ℝ := latIdxs.map (fun k => ((ds.lats.getD k 0 : ℚ) : ℝ))
    match tIdxs with
    | [] => none
    | t0 :: _ => some (extent_km (lon : ℝ)
        (latIdxs.map (fun k => ds.conc li t0 k)) lat threshold)
  | _, _ => none

/-- The first time index of the monthly window that `ice[0]` reads
(src/core.py:179 and 188), or 0 when the window is absent. -/
def firstWindowIdx (ds : IceDataset) (year : Int) (orca : Bool) (m : String) : Nat :=
  match create_month_dt m year orca with
  | some (s, e) => (timeWindowIdxs ds s e).headD 0
  | none => 0

/-- Embedding of the `plot_ice_extent` endpoint shape (src/core.py:145-207)
for one variable: the entry `assert self.extent.west <= longitude <=
self.extent.east` (line 154) guards everything; past it, the function
produces one extent scalar per configured month.  A longitude outside the
extent produces the `OutOfExtentLongitude` failure with no slicing and no
clamping. -/
noncomputable def plot_ice_extent_model (ext : Extent) (orca : Bool)
    (ds : IceDataset) (months : List String) (lon : ℚ) (threshold : ℝ) :
    Except PlotErr (List (Option ℝ)) :=
  if ext.west ≤ lon ∧ lon ≤ ext.east then
    Except.ok (months.map (fun m => monthExtent ds ext.year orca m lon threshold))
  else Except.error PlotErr.outOfExtentLongitude

/-- Embedding of the `plot_transects` endpoint shape (src/core.py:80-143)
restricted to what reaches the export call: the same entry assert
(line 88), and per month the colour-scale pair computed *inside* the
month loop (line 101) but always from the full variable `ds_var`, never
from the month slice. -/
def plot_transects_model (ext : Extent) (dsVar : List (Option ℚ))
    (months : List String) (lon : ℚ) :
    Except PlotErr (List (Option (ℚ × ℚ))) :=
  if ext.west ≤ lon ∧ lon ≤ ext.east then
    Except.ok (months.map (fun _ => colourmap_limits dsVar))
  else Except.error PlotErr.outOfExtentLongitude

lemma dtLTb_addOneMonth (d : SimpleDT) : dtLTb d (addOneMonth d) = true := by
  unfold addOneMonth dtLTb
  split <;> simp

/-- C4: for every recognised English month name and every year,
`__create_month_dt` returns a pair (start, end) with start at day 1,
hour 0 of that month, end exactly one calendar month after start in the
same calendar system (hence end > start); in particular January 2023
gives (2023-01-01T00:00, 2023-02-01T00:00), and with the model calendar
both instants carry identical day/month/year numerals re-expressed in
the 360-day calendar. -/
theorem create_month_dt_bounds :
    (∀ m ∈ month_names, ∀ (y : Int) (orca : Bool), ∃ s e : CalDT,
      create_month_dt m y orca = some (s, e) ∧
      dtLTb s.dt e.dt = true ∧
      s.kind = e.kind ∧
      e.dt = addOneMonth s.dt ∧
      s.dt.day = 1 ∧ s.dt.hour = 0) ∧
    create_month_dt ("January") 2023 false =
      some (⟨CalKind.gregorian, ⟨2023, 1, 1, 0⟩⟩, ⟨CalKind.gregorian, ⟨2023, 2, 1, 0⟩⟩) ∧
    create_month_dt ("January") 2023 true =
      some (⟨CalKind.day360, ⟨2023, 1, 1, 0⟩⟩, ⟨CalKind.day360, ⟨2023, 2, 1, 0⟩⟩) := by
  refine ⟨?_, by decide, by decide⟩
  intro m hm y orca
  fin_cases hm <;> cases orca <;>
    exact ⟨_, _, rfl, dtLTb_addOneMonth _, rfl, rfl, rfl, rfl⟩

/-- Witness for C4 at the concrete input ("June", 1999, model calendar). -/
theorem create_month_dt_bounds_witness :
    ∃ s e : CalDT, create_month_dt ("June") 1999 true = some (s, e) ∧
      dtLTb s.dt e.dt = true ∧ s.kind = e.kind ∧ e.dt = addOneMonth s.dt ∧
      s.dt.day = 1 ∧ s.dt.hour = 0 :=
  create_month_dt_bounds.1 ("June") (by decide) 1999 true

lemma mask_zero_not_some_zero (xs : List (Option ℚ)) : some 0 ∉ mask_zero xs := by
  intro hmem
  rcases List.mem_map.1 hmem with ⟨v, _, hv⟩
  by_cases h : v = some 0 <;> simp [h] at hv

lemma mask_zero_getD_of_zero (xs : List (Option ℚ)) (i : Nat)
    (hi : i < xs.length) (hz : xs.getD i none = some 0) :
    (mask_zero xs).getD i none = none := by
  have hlen : i < (mask_zero xs).length := by simpa [mask_zero] using hi
  have h1 : xs.getD i none = xs[i] := List.getD_eq_getElem xs none hi
  have h2 : (mask_zero xs).getD i none = (mask_zero xs)[i] :=
    List.getD_eq_getElem _ none hlen
  rw [h2]
  simp only [mask_zero, List.getElem_map]
  rw [h1] at hz
  simp [hz]

/-- C5: `__regrid_ORCA` converts every exact-zero cell to NaN before
interpolation, masks the interpolated output the same way again, and
consequently its output contains no exact-zero value, whatever the
external interpolation step does. -/
theorem regrid_ORCA_zero_masking :
    ∀ (interp : List (Option ℚ) → List (Option ℚ)) (xs : List (Option ℚ)),
      (∀ i, i < xs.length → xs.getD i none = some 0 →
        (mask_zero xs).getD i none = none) ∧
      regrid_ORCA_values interp xs = mask_zero (interp (mask_zero xs)) ∧
      some 0 ∉ regrid_ORCA_values interp xs := by
  intro interp xs
  exact ⟨fun i hi hz => mask_zero_getD_of_zero xs i hi hz, rfl,
    mask_zero_not_some_zero _⟩

/-- Witness for C5 at the concrete input [0, NaN, 3] with the identity
interpolation. -/
theorem regrid_ORCA_zero_masking_witness :
    (mask_zero [some 0, none, some 3]).getD 0 none = none ∧
    some 0 ∉ regrid_ORCA_values id [some 0, none, some 3] :=
  ⟨(regrid_ORCA_zero_masking id [some 0, none, some 3]).1 0 (by decide) (by decide),
   (regrid_ORCA_zero_masking id [some 0, none, some 3]).2.2⟩

lemma qabs_nonneg (q : ℚ) : 0 ≤ qabs q := by
  unfold qabs; split <;> linarith

lemma qabs_eq_zero (q : ℚ) (h : qabs q ≤ 0) : q = 0 := by
  unfold qabs at h; split at h <;> linarith

lemma nearestFold_spec (coords : List ℚ) (x : ℚ) (n acc : Nat)
    (hn : n ≤ coords.length) (hacc : acc < coords.length) :
    ((List.range n).foldl
       (fun best i =>
         if qabs (coords.getD i 0 - x) < qabs (coords.getD best 0 - x) then i
         else best) acc) < coords.length ∧
    qabs (coords.getD ((List.range n).foldl
       (fun best i =>
         if qabs (coords.getD i 0 - x) < qabs (coords.getD best 0 - x) then i
         else best) acc) 0 - x) ≤ qabs (coords.getD acc 0 - x) ∧
    ∀ i, i < n →
      qabs (coords.getD ((List.range n).foldl
        (fun best i =>
          if qabs (coords.getD i 0 - x) < qabs (coords.getD best 0 - x) then i
          else best) acc) 0 - x) ≤ qabs (coords.getD i 0 - x) := by
  induction n with
  | zero => exact ⟨hacc, le_refl _, fun i hi => absurd hi (Nat.not_lt_zero i)⟩
  | succ k ih =>
      have hk : k ≤ coords.length := Nat.le_of_succ_le hn
      obtain ⟨ih1, ih2, ih3⟩ := ih hk
      rw [List.range_succ, List.foldl_append, List.foldl_cons, List.foldl_nil]
      set r := (List.range k).foldl
        (fun best i =>
          if qabs (coords.getD i 0 - x) < qabs (coords.getD best 0 - x) then i
          else best) acc with hr
      by_cases hcmp : qabs (coords.getD k 0 - x) < qabs (coords.getD r 0 - x)
      · rw [if_pos hcmp]
        refine ⟨hn, le_trans (le_of_lt hcmp) ih2, ?_⟩
        intro i hi
        rcases Nat.lt_succ_iff_lt_or_eq.1 hi with hik | hik
        · exact le_trans (le_of_lt hcmp) (ih3 i hik)
        · subst hik; exact le_refl _
      · rw [if_neg hcmp]
        refine ⟨ih1, ih2, ?_⟩
        intro i hi
        rcases Nat.lt_succ_iff_lt_or_eq.1 hi with hik | hik
        · exact ih3 i hik
        · subst hik; exact le_of_not_lt hcmp

/-- C6: longitude selection in the slicer is nearest-neighbour and never
interpolates: a requested longitude equal to an existing grid coordinate
selects exactly that coordinate's value, and in general the closest grid
value is chosen — requesting 30.0 against [29.8, 30.1, 30.4] selects
30.1. -/
theorem selNearest_roundtrip :
    (∀ (coords : List ℚ) (x : ℚ), x ∈ coords → selNearest coords x = some x) ∧
    selNearest [29.8, 30.1, 30.4] 30 = some 30.1 := by
  constructor
  · intro coords x hmem
    match coords, hmem with
    | c :: cs, hmem =>
      rcases List.mem_iff_get.1 hmem with ⟨⟨i, hi⟩, hget⟩
      have hgetD : (c :: cs).getD i 0 = x := by
        rw [List.getD_eq_getElem _ _ hi]
        rw [List.get_eq_getElem] at hget
        exact hget
      obtain ⟨hres, _, hall⟩ :=
        nearestFold_spec (c :: cs) x (c :: cs).length 0
          (le_refl _) (by simp)
      have hle := hall i hi
      rw [hgetD] at hle
      have hzero : (c :: cs).getD ((List.range (c :: cs).length).foldl
          (fun best j =>
            if qabs ((c :: cs).getD j 0 - x) < qabs ((c :: cs).getD best 0 - x) then j
            else best) 0) 0 - x = 0 := by
        apply qabs_eq_zero
        simpa [qabs] using hle
      have hval : (c :: cs).getD ((List.range (c :: cs).length).foldl
          (fun best j =>
            if qabs ((c :: cs).getD j 0 - x) < qabs ((c :: cs).getD best 0 - x) then j
            else best) 0) 0 = x := by linarith [hzero]
      exact congrArg some hval
  · norm_num [selNearest, nearestIdx, qabs, List.range_succ, List.getD]

/-- Witness for C6: the grid value 2 is selected exactly when requested. -/
theorem selNearest_roundtrip_witness : selNearest [1, 2] 2 = some 2 :=
  selNearest_roundtrip.1 [1, 2] 2 (by norm_num)

/-- C8: a longitude strictly outside [west, east] makes both endpoints
fail with the out-of-extent-longitude precondition violation before any
dataset slicing occurs — the result is the error, carrying no sliced or
clamped data, for every dataset, variable, month list and threshold. -/
theorem plot_out_of_extent_errors (ext : Extent) (lon : ℚ)
    (h : lon < ext.west ∨ ext.east < lon) :
    (∀ (orca : Bool) (ds : IceDataset) (months : List String) (t : ℝ),
      plot_ice_extent_model ext orca ds months lon t =
        Except.error PlotErr.outOfExtentLongitude) ∧
    (∀ (dsVar : List (Option ℚ)) (months : List String),
      plot_transects_model ext dsVar months lon =
        Except.error PlotErr.outOfExtentLongitude) := by
  have hfail : ¬(ext.west ≤ lon ∧ lon ≤ ext.east) := by
    rcases h with h | h
    · exact fun hc => absurd hc.1 (not_le.2 h)
    · exact fun hc => absurd hc.2 (not_le.2 h)
  constructor
  · intro orca ds months t
    unfold plot_ice_extent_model
    rw [if_neg hfail]
  · intro dsVar months
    unfold plot_transects_model
    rw [if_neg hfail]

/-- Concrete dataset used by the C8 and C10 witnesses: a single-longitude
Gregorian dataset with two January time steps and two in-window
latitudes. -/
def witnessDS : IceDataset :=
  { lons := [30]
    lats := [70, 70.5]
    calendar := CalKind.gregorian
    times := [⟨2023, 1, 15, 0⟩, ⟨2023, 1, 20, 0⟩]
    conc := fun _ ti _ => if ti = 0 then 1 else 0 }

/-- Witness for C8 at longitude 28 against extent [29, 31]. -/
theorem plot_out_of_extent_errors_witness :
    plot_ice_extent_model ⟨80, 69, 31, 29, 2023⟩ false witnessDS
        [month_names.headD ("")] 28 0.05 =
      Except.error PlotErr.outOfExtentLongitude ∧
    plot_transects_model ⟨80, 69, 31, 29, 2023⟩ [some 1] [month_names.headD ("")] 28 =
      Except.error PlotErr.outOfExtentLongitude :=
  ⟨(plot_out_of_extent_errors ⟨80, 69, 31, 29, 2023⟩ 28 (Or.inl (by norm_num))).1
      false witnessDS [month_names.headD ("")] 0.05,
   (plot_out_of_extent_errors ⟨80, 69, 31, 29, 2023⟩ 28 (Or.inl (by norm_num))).2
      [some 1] [month_names.headD ("")]⟩

/-- C9: in `plot_transects` the colour-scale pair for a variable is the
same for every month: each month is handed the pair computed from the
full (regridded or raw) variable, independent of the month being sliced. -/
theorem plot_transects_clim_month_independent (ext : Extent)
    (dsVar : List (Option ℚ)) (months : List String) (lon : ℚ)
    (hw : ext.west ≤ lon) (he : lon ≤ ext.east) :
    ∃ out, plot_transects_model ext dsVar months lon = Except.ok out ∧
      out.length = months.length ∧
      ∀ i, i < months.length → out.getD i none = colourmap_limits dsVar := by
  refine ⟨months.map (fun _ => colourmap_limits dsVar), ?_, by simp, ?_⟩
  · unfold plot_transects_model
    rw [if_pos ⟨hw, he⟩]
  · intro i hi
    rw [List.getD_eq_getElem _ _ (by simpa using hi)]
    simp

/-- Witness for C9: two months, identical pairs, at longitude 30 inside
extent [29, 31]. -/
theorem plot_transects_clim_month_independent_witness :
    ∃ out, plot_transects_model ⟨80, 69, 31, 29, 2023⟩ [some 1, some 2]
        [month_names.headD (""), month_names.getD 1 ("")] 30 = Except.ok out ∧
      out.length = 2 ∧
      ∀ i, i < 2 → out.getD i none = colourmap_limits [some 1, some 2] :=
  plot_transects_clim_month_independent ⟨80, 69, 31, 29, 2023⟩ [some 1, some 2]
    [month_names.headD (""), month_names.getD 1 ("")] 30 (by norm_num) (by norm_num)

lemma haversine_nonneg (lon1 lat1 lon2 lat2 : ℝ) : 0 ≤ haversine lon1 lat1 lon2 lat2 := by
  simp only [haversine]
  have h1 : 0 ≤ Real.arcsin (Real.sqrt
      (Real.sin ((lat2 * (Real.pi / 180) - lat1 * (Real.pi / 180)) / 2) ^ 2 +
        Real.cos (lat1 * (Real.pi / 180)) * Real.cos (lat2 * (Real.pi / 180)) *
          Real.sin ((lon2 * (Real.pi / 180) - lon1 * (Real.pi / 180)) / 2) ^ 2)) :=
    Real.arcsin_nonneg.2 (Real.sqrt_nonneg _)
  have h2 : (0 : ℝ) ≤ 6371.0 := by norm_num
  nlinarith

lemma haversine_sameLon (lon l1 l2 : ℝ) (h1 : l1 ≤ l2) (h2 : l2 - l1 ≤ 180) :
    haversine lon l1 lon l2 = 6371 * ((l2 - l1) * Real.pi / 180) := by
  simp only [haversine]
  rw [sub_self, zero_div, Real.sin_zero]
  have hx0 : (0 : ℝ) ≤ (l2 * (Real.pi / 180) - l1 * (Real.pi / 180)) / 2 := by
    have := Real.pi_pos
    nlinarith
  have hxhalf : (l2 * (Real.pi / 180) - l1 * (Real.pi / 180)) / 2 ≤ Real.pi / 2 := by
    have := Real.pi_pos
    nlinarith
  have hsin0 : 0 ≤ Real.sin ((l2 * (Real.pi / 180) - l1 * (Real.pi / 180)) / 2) :=
    Real.sin_nonneg_of_nonneg_of_le_pi hx0 (by linarith [Real.pi_pos])
  rw [show (0 : ℝ) ^ 2 = 0 by norm_num, mul_zero, add_zero,
    Real.sqrt_sq hsin0,
    Real.arcsin_sin (by linarith [Real.pi_pos]) hxhalf]
  ring

lemma extent_km_eq_sum (lon t : ℝ) (ice lat : List ℝ) :
    extent_km lon ice lat t = ∑ k in Finset.range (ice.length - 1),
      (if ice.getD k 0 > t then haversine lon (lat.getD k 0) lon (lat.getD (k + 1) 0)
       else 0) := by
  unfold extent_km
  generalize ice.length - 1 = n
  have key : ∀ (n : Nat) (acc : ℝ), (List.range n).foldl
      (fun acc k =>
        if ice.getD k 0 > t then
          acc + haversine lon (lat.getD k 0) lon (lat.getD (k + 1) 0)
        else acc) acc =
      acc + ∑ k in Finset.range n,
        (if ice.getD k 0 > t then haversine lon (lat.getD k 0) lon (lat.getD (k + 1) 0)
         else 0) := by
    intro n
    induction n with
    | zero => intro acc; simp
    | succ m ih =>
        intro acc
        rw [List.range_succ, List.foldl_append, List.foldl_cons, List.foldl_nil, ih,
          Finset.sum_range_succ]
        by_cases h : ice.getD m 0 > t
        · rw [if_pos h, if_pos h]; ring
        · rw [if_neg h, if_neg h]; ring
  rw [key n 0, zero_add]

/-- C1: the ice-extent result is the sum, over consecutive index pairs
(k, k+1), of the haversine distance (Earth radius 6371.0 km) between the
two latitudes at the fixed longitude, taken exactly when the
concentration at the lower index k exceeds the threshold — the last grid
point's own concentration never independently contributes.  For
concentrations [0.0, 0.2, 0.01, 0.3] at latitudes [70.0, 70.5, 71.0,
71.5] with threshold 0.05, only index 1 contributes, and the result is
the single haversine distance from latitude 70.5 to 71.0, which is
within 0.1 km of 55.5 km. -/
theorem extent_km_pairwise_haversine_sum :
    (∀ (lon t : ℝ) (ice lat : List ℝ),
      extent_km lon ice lat t = ∑ k in Finset.range (ice.length - 1),
        (if ice.getD k 0 > t then haversine lon (lat.getD k 0) lon (lat.getD (k + 1) 0)
         else 0)) ∧
    (∀ lon : ℝ, extent_km lon [0, 0.2, 0.01, 0.3] [70, 70.5, 71, 71.5] 0.05 =
      haversine lon 70.5 lon 71) ∧
    (∀ lon : ℝ, |haversine lon 70.5 lon 71 - 55.5| < 1 / 10) := by
  refine ⟨extent_km_eq_sum, ?_, ?_⟩
  · intro lon
    rw [extent_km_eq_sum]
    norm_num [Finset.sum_range_succ, List.getD_cons_zero, List.getD_cons_succ]
  · intro lon
    rw [haversine_sameLon lon 70.5 71 (by norm_num) (by norm_num), abs_sub_lt_iff]
    constructor <;> nlinarith [Real.pi_gt_d6, Real.pi_lt_d6]

lemma getD_set_ne (l : List ℝ) (i j : Nat) (v : ℝ) (h : i ≠ j) :
    (l.set i v).getD j 0 = l.getD j 0 := by
  simp [List.getD_eq_getElem?_getD, List.getElem?_set_ne h]

lemma getD_set_self (l : List ℝ) (i : Nat) (v : ℝ) (h : i < l.length) :
    (l.set i v).getD i 0 = v := by
  simp only [List.getD_eq_getElem?_getD]
  rw [List.getElem?_set_self]
  · rfl
  · exact h

/-- C7: the ice-extent result is non-negative for every transect; it is
exactly 0.0 when no transect point exceeds the threshold; and raising any
single concentration value from below the threshold to above it (with the
latitudes fixed) never decreases the result. -/
theorem extent_km_nonneg_zero_mono :
    (∀ (lon t : ℝ) (ice lat : List ℝ), 0 ≤ extent_km lon ice lat t) ∧
    (∀ (lon t : ℝ) (ice lat : List ℝ),
      (∀ k, k < ice.length → ice.getD k 0 ≤ t) → extent_km lon ice lat t = 0) ∧
    (∀ (lon t : ℝ) (ice lat : List ℝ) (i : Nat) (v : ℝ),
      ice.getD i 0 ≤ t → t < v →
      extent_km lon ice lat t ≤ extent_km lon (ice.set i v) lat t) := by
  refine ⟨?_, ?_, ?_⟩
  · intro lon t ice lat
    rw [extent_km_eq_sum]
    refine Finset.sum_nonneg ?_
    intro k _
    by_cases h : ice.getD k 0 > t
    · rw [if_pos h]; exact haversine_nonneg _ _ _ _
    · rw [if_neg h]
  · intro lon t ice lat hall
    rw [extent_km_eq_sum]
    refine Finset.sum_eq_zero ?_
    intro k hk
    have hklt : k < ice.length := by
      have := Finset.mem_range.1 hk
      omega
    exact if_neg (not_lt.2 (hall k hklt))
  · intro lon t ice lat i v hbelow habove
    by_cases hilen : i < ice.length
    · rw [extent_km_eq_sum, extent_km_eq_sum, List.length_set]
      refine Finset.sum_le_sum ?_
      intro k _
      by_cases hki : i = k
      · subst hki
        rw [getD_set_self ice i v hilen, if_pos habove, if_neg (not_lt.2 hbelow)]
        exact haversine_nonneg _ _ _ _
      · rw [getD_set_ne ice i k v hki]
    · rw [List.set_eq_of_length_le (le_of_not_lt hilen)]

/-- Witness for C7: the zero case on [0.01] with threshold 0.05, and the
raise-one-point case on [0, 0] with threshold 1, raised to 2 at index 0. -/
theorem extent_km_nonneg_zero_mono_witness :
    extent_km 30 [0.01] [70] 0.05 = 0 ∧
    extent_km 30 [0, 0] [70, 71] 1 ≤ extent_km 30 ([0, 0].set 0 2) [70, 71] 1 :=
  ⟨extent_km_nonneg_zero_mono.2.1 30 0.05 [0.01] [70]
      (by
        intro k hk
        have hk0 : k = 0 := by simpa using hk
        subst hk0
        norm_num [List.getD_cons_zero]),
   extent_km_nonneg_zero_mono.2.2 30 1 [0, 0] [70, 71] 0 2
      (by norm_num [List.getD_cons_zero]) (by norm_num)⟩

lemma timeWindowIdxs_congr (ds ds2 : IceDataset) (hcal : ds2.calendar = ds.calendar)
    (htimes : ds2.times = ds.times) (s e : CalDT) :
    timeWindowIdxs ds2 s e = timeWindowIdxs ds s e := by
  unfold timeWindowIdxs
  rw [hcal, htimes]

lemma latWindowIdxs_congr (ds ds2 : IceDataset) (hlats : ds2.lats = ds.lats) :
    latWindowIdxs ds2 = latWindowIdxs ds := by
  unfold latWindowIdxs
  rw [hlats]

/-- C10: for every month, only the concentration values at the first time
index of the monthly window are read: two datasets with the same
coordinate axes and calendar that agree on the concentration at that
first time index (whatever they do at later time steps) produce the
identical extent result for that month. -/
theorem monthExtent_first_timestep_only
    (ds ds2 : IceDataset) (year : Int) (orca : Bool) (m : String) (lon : ℚ) (t : ℝ)
    (hlons : ds2.lons = ds.lons) (hlats : ds2.lats = ds.lats)
    (hcal : ds2.calendar = ds.calendar) (htimes : ds2.times = ds.times)
    (hfirst : ∀ li k, ds2.conc li (firstWindowIdx ds year orca m) k =
      ds.conc li (firstWindowIdx ds year orca m) k) :
    monthExtent ds2 year orca m lon t = monthExtent ds year orca m lon t := by
  unfold monthExtent
  rw [hlons]
  cases hcm : create_month_dt m year orca with
  | none => rfl
  | some pe =>
    obtain ⟨s, e⟩ := pe
    cases hni : nearestIdx ds.lons lon with
    | none => rfl
    | some li =>
      simp only [timeWindowIdxs_congr ds ds2 hcal htimes,
        latWindowIdxs_congr ds ds2 hlats, hlats]
      cases htw : timeWindowIdxs ds s e with
      | nil => rfl
      | cons t0 rest =>
        have ht0 : firstWindowIdx ds year orca m = t0 := by
          unfold firstWindowIdx
          simp only [hcm]
          rw [htw]
          rfl
        have hconc : (fun k => ds2.conc li t0 k) = fun k => ds.conc li t0 k := by
          funext k
          rw [← ht0]
          exact hfirst li k
        simp only [hconc]

/-- Variant of `witnessDS` that differs only at the second (later) time
step of the January window. -/
def witnessDS2 : IceDataset :=
  { witnessDS with conc := fun _ ti _ => if ti = 0 then 1 else 5 }

/-- Witness for C10: the two concrete datasets agree at the first January
time step, differ at the second, and get the same monthly extent. -/
theorem monthExtent_first_timestep_only_witness :
    monthExtent witnessDS2 2023 false ("January") 30 0.05 =
      monthExtent witnessDS 2023 false ("January") 30 0.05 :=
  monthExtent_first_timestep_only witnessDS witnessDS2 2023 false ("January") 30 0.05
    rfl rfl rfl rfl
    (by
      intro li k
      have hF : firstWindowIdx witnessDS 2023 false ("January") = 0 := by decide
      rw [hF]
      rfl)

lemma linspace_length (lo hi : ℚ) (n : Nat) : (linspace lo hi n).length = n := by
  match n with
  | 0 => rfl
  | 1 => rfl
  | Nat.succ (Nat.succ k) =>
      show ((List.range (k + 2)).map
        (fun i : Nat => lo + (i : ℚ) * (hi - lo) / ((k + 1 : Nat) : ℚ))).length = k + 2
      rw [List.length_map, List.length_range]

lemma linspace_getD (lo hi : ℚ) (k i : Nat) (hik : i < k + 2) :
    (linspace lo hi (k + 2)).getD i 0 = lo + (i : ℚ) * (hi - lo) / ((k + 1 : Nat) : ℚ) := by
  have hlen : i < (linspace lo hi (k + 2)).length := by
    rw [linspace_length]; exact hik
  rw [List.getD_eq_getElem _ _ hlen]
  have hlen2 : i < ((List.range (k + 2)).map
      (fun j : Nat => lo + (j : ℚ) * (hi - lo) / ((k + 1 : Nat) : ℚ))).length := by
    rw [List.length_map, List.length_range]
    exact hik
  show ((List.range (k + 2)).map
      (fun j : Nat => lo + (j : ℚ) * (hi - lo) / ((k + 1 : Nat) : ℚ)))[i] =
    lo + (i : ℚ) * (hi - lo) / ((k + 1 : Nat) : ℚ)
  rw [List.getElem_map, List.getElem_range]

lemma linspace_chain (lo hi : ℚ) (k : Nat) (hlt : lo < hi) :
    List.Chain' (· < ·) (linspace lo hi (k + 2)) := by
  rw [List.chain'_iff_get]
  intro i hi2
  have hlen : (linspace lo hi (k + 2)).length = k + 2 := linspace_length lo hi (k + 2)
  rw [hlen] at hi2
  have h1 : i < k + 2 := by omega
  have h2 : i + 1 < k + 2 := by omega
  have g1 : (linspace lo hi (k + 2)).get ⟨i, by omega⟩ =
      lo + (i : ℚ) * (hi - lo) / ((k + 1 : Nat) : ℚ) := by
    rw [List.get_eq_getElem, ← List.getD_eq_getElem _ 0, linspace_getD lo hi k i h1]
  have g2 : (linspace lo hi (k + 2)).get ⟨i + 1, by omega⟩ =
      lo + ((i + 1 : Nat) : ℚ) * (hi - lo) / ((k + 1 : Nat) : ℚ) := by
    rw [List.get_eq_getElem, ← List.getD_eq_getElem _ 0, linspace_getD lo hi k (i + 1) h2]
  rw [g1, g2]
  have hk : (0 : ℚ) < ((k + 1 : Nat) : ℚ) := by positivity
  have hstep : (0 : ℚ) < (hi - lo) / ((k + 1 : Nat) : ℚ) := by
    apply div_pos _ hk
    linarith
  push_cast
  push_cast at hstep
  rw [mul_div_assoc, mul_div_assoc]
  nlinarith [hstep]

lemma two_le_floorToNat_imp (lo hi res : ℚ) (hres : 0 < res)
    (h2 : 2 ≤ (⌊(hi - lo) / res⌋).toNat) : lo < hi := by
  have hz : (2 : ℤ) ≤ ⌊(hi - lo) / res⌋ := by omega
  have hq : (2 : ℚ) ≤ (hi - lo) / res := by
    have := Int.le_floor.1 hz
    exact_mod_cast this
  have := (le_div_iff₀ hres).1 hq
  nlinarith

lemma linspace_props (lo hi : ℚ) (n : Nat) (hlohi : 2 ≤ n → lo < hi) :
    (linspace lo hi n).length = n ∧
    List.Chain' (· < ·) (linspace lo hi n) ∧
    (2 ≤ n →
      (linspace lo hi n).getD 0 0 = lo ∧
      (linspace lo hi n).getD (n - 1) 0 = hi ∧
      ∀ i, i + 1 < n →
        (linspace lo hi n).getD (i + 1) 0 - (linspace lo hi n).getD i 0 =
          (hi - lo) / ((n : ℚ) - 1)) := by
  match n with
  | 0 => exact ⟨rfl, List.chain'_nil, fun h => absurd h (by omega)⟩
  | 1 => exact ⟨rfl, List.chain'_singleton lo, fun h => absurd h (by omega)⟩
  | Nat.succ (Nat.succ k) =>
      have hk1 : ((k + 1 : Nat) : ℚ) ≠ 0 := by positivity
      refine ⟨linspace_length lo hi (k + 2),
        linspace_chain lo hi k (hlohi (by omega)), fun _ => ⟨?_, ?_, ?_⟩⟩
      · rw [linspace_getD lo hi k 0 (by omega)]
        norm_num
      · show (linspace lo hi (k + 2)).getD (k + 1) 0 = hi
        rw [linspace_getD lo hi k (k + 1) (by omega)]
        field_simp
      · intro i hi2
        rw [linspace_getD lo hi k (i + 1) (by omega), linspace_getD lo hi k i (by omega)]
        push_cast
        field_simp
        ring

/-- C3 counterexample: for source latitudes with min 0 and max 3/2 and
target resolution 1, the point count is ⌊3/2⌋ = 1 and the produced axis
is the single point [0], which does not span up to the source maximum
3/2 — so the axis does not span [min, max] for every resolution r > 0 as
claimed. -/
theorem regrid_axis_span_counterexample :
    listMin [0, 3/2] = 0 ∧ listMax [0, 3/2] = 3/2 ∧
    regrid_axis [0, 3/2] 1 = [0] ∧ (3/2 : ℚ) ∉ regrid_axis [0, 3/2] 1 := by
  have h1 : listMin [0, 3/2] = 0 := by
    norm_num [listMin]
  have h2 : listMax [0, 3/2] = 3/2 := by
    norm_num [listMax]
  have hax : regrid_axis [0, 3/2] 1 = [0] := by
    unfold regrid_axis
    rw [h1, h2]
    norm_num [linspace]
  refine ⟨h1, h2, hax, ?_⟩
  rw [hax]
  norm_num

/-- C3 (amended): for every source coordinate list and resolution r > 0,
the target axis has length ⌊(max − min)/r⌋, is strictly monotonic, and —
whenever that point count is at least 2 — starts at the source minimum,
ends at the source maximum, and is evenly spaced with step
(max − min)/(count − 1).  (With count ≤ 1 the axis degenerates to the
empty list or the single point [min] and cannot span [min, max].) -/
theorem regrid_axis_monotone_evenly_spaced (coords : List ℚ) (res : ℚ)
    (hres : 0 < res) :
    (regrid_axis coords res).length =
      (⌊(listMax coords - listMin coords) / res⌋).toNat ∧
    List.Chain' (· < ·) (regrid_axis coords res) ∧
    (2 ≤ (⌊(listMax coords - listMin coords) / res⌋).toNat →
      (regrid_axis coords res).getD 0 0 = listMin coords ∧
      (regrid_axis coords res).getD
        ((⌊(listMax coords - listMin coords) / res⌋).toNat - 1) 0 = listMax coords ∧
      ∀ i, i + 1 < (⌊(listMax coords - listMin coords) / res⌋).toNat →
        (regrid_axis coords res).getD (i + 1) 0 - (regrid_axis coords res).getD i 0 =
          (listMax coords - listMin coords) /
            (((⌊(listMax coords - listMin coords) / res⌋).toNat : ℚ) - 1)) := by
  have hax : regrid_axis coords res =
      linspace (listMin coords) (listMax coords)
        ((⌊(listMax coords - listMin coords) / res⌋).toNat) := rfl
  rw [hax]
  exact linspace_props (listMin coords) (listMax coords)
    ((⌊(listMax coords - listMin coords) / res⌋).toNat)
    (fun h2 => two_le_floorToNat_imp (listMin coords) (listMax coords) res hres h2)

/-- Witness for C3 at coordinates [0, 10] and resolution 1 (point count
10). -/
theorem regrid_axis_monotone_evenly_spaced_witness :
    (regrid_axis [0, 10] 1).length = (⌊(listMax [0, 10] - listMin [0, 10]) / 1⌋).toNat ∧
    List.Chain' (· < ·) (regrid_axis [0, 10] 1) ∧
    (2 ≤ (⌊(listMax [0, 10] - listMin [0, 10]) / 1⌋).toNat →
      (regrid_axis [0, 10] 1).getD 0 0 = listMin [0, 10] ∧
      (regrid_axis [0, 10] 1).getD
        ((⌊(listMax [0, 10] - listMin [0, 10]) / 1⌋).toNat - 1) 0 = listMax [0, 10] ∧
      ∀ i, i + 1 < (⌊(listMax [0, 10] - listMin [0, 10]) / 1⌋).toNat →
        (regrid_axis [0, 10] 1).getD (i + 1) 0 - (regrid_axis [0, 10] 1).getD i 0 =
          (listMax [0, 10] - listMin [0, 10]) /
            (((⌊(listMax [0, 10] - listMin [0, 10]) / 1⌋).toNat : ℚ) - 1)) :=
  regrid_axis_monotone_evenly_spaced [0, 10] 1 (by norm_num)

lemma foldl_min_le_init (cs : List ℚ) : ∀ a : ℚ, cs.foldl min a ≤ a := by
  induction cs with
  | nil => intro a; simp
  | cons y ys ih =>
      intro a
      rw [List.foldl_cons]
      exact le_trans (ih (min a y)) (min_le_left a y)

lemma foldl_min_le_mem (cs : List ℚ) : ∀ a x : ℚ, x ∈ cs → cs.foldl min a ≤ x := by
  induction cs with
  | nil => intro a x hx; exact absurd hx (List.not_mem_nil x)
  | cons y ys ih =>
      intro a x hx
      rw [List.foldl_cons]
      rcases List.mem_cons.1 hx with rfl | hxs
      · exact le_trans (foldl_min_le_init ys (min a x)) (min_le_right a x)
      · exact ih (min a y) x hxs

lemma listMin_le_mem (l : List ℚ) (x : ℚ) (hx : x ∈ l) : listMin l ≤ x := by
  match l, hx with
  | c :: cs, hx =>
      rcases List.mem_cons.1 hx with rfl | hxs
      · exact foldl_min_le_init cs x
      · exact foldl_min_le_mem cs c x hxs

lemma init_le_foldl_max (cs : List ℚ) : ∀ a : ℚ, a ≤ cs.foldl max a := by
  induction cs with
  | nil => intro a; simp
  | cons y ys ih =>
      intro a
      rw [List.foldl_cons]
      exact le_trans (le_max_left a y) (ih (max a y))

lemma mem_le_foldl_max (cs : List ℚ) : ∀ a x : ℚ, x ∈ cs → x ≤ cs.foldl max a := by
  induction cs with
  | nil => intro a x hx; exact absurd hx (List.not_mem_nil x)
  | cons y ys ih =>
      intro a x hx
      rw [List.foldl_cons]
      rcases List.mem_cons.1 hx with rfl | hxs
      · exact le_trans (le_max_right a x) (init_le_foldl_max ys (max a x))
      · exact ih (max a y) x hxs

lemma mem_le_listMax (l : List ℚ) (x : ℚ) (hx : x ∈ l) : x ≤ listMax l := by
  match l, hx with
  | c :: cs, hx =>
      rcases List.mem_cons.1 hx with rfl | hxs
      · exact init_le_foldl_max cs x
      · exact mem_le_foldl_max cs c x hxs

lemma getD_default_irrel (s : List ℚ) (idx : Nat) (d : ℚ) (h : idx < s.length) :
    s.getD idx d = s.getD idx 0 := by
  rw [List.getD_eq_getElem _ _ h, List.getD_eq_getElem _ _ h]

lemma getD_mem (s : List ℚ) (idx : Nat) (h : idx < s.length) : s.getD idx 0 ∈ s := by
  rw [List.getD_eq_getElem _ _ h]
  exact List.getElem_mem h

lemma sorted_getD_mono (s : List ℚ) (hs : List.Sorted (· ≤ ·) s) (i j : Nat)
    (hij : i ≤ j) (hj : j < s.length) : s.getD i 0 ≤ s.getD j 0 := by
  have hi : i < s.length := Nat.lt_of_le_of_lt hij hj
  rw [List.getD_eq_getElem _ _ hi, List.getD_eq_getElem _ _ hj]
  rcases Nat.eq_or_lt_of_le hij with rfl | hlt
  · exact le_refl _
  · have hfin : (⟨i, hi⟩ : Fin s.length) < ⟨j, hj⟩ := hlt
    have := List.pairwise_iff_get.1 hs ⟨i, hi⟩ ⟨j, hj⟩ hfin
    simpa using this

lemma floorToNat_lt_of_le (pos : ℚ) (m : Nat) (h0 : 0 ≤ pos)
    (h1 : pos ≤ (m : ℚ) - 1) : ⌊pos⌋.toNat < m := by
  have hfl : ((⌊pos⌋ : ℤ) : ℚ) ≤ pos := Int.floor_le pos
  have h2 : ((⌊pos⌋ : ℤ) : ℚ) ≤ (m : ℚ) - 1 := le_trans hfl h1
  have h3 : ⌊pos⌋ ≤ (m : ℤ) - 1 := by exact_mod_cast h2
  have h4 : 0 ≤ ⌊pos⌋ := Int.floor_nonneg.2 h0
  omega

lemma floorToNat_cast (pos : ℚ) (h0 : 0 ≤ pos) :
    ((⌊pos⌋.toNat : Nat) : ℚ) = ((⌊pos⌋ : ℤ) : ℚ) := by
  have h4 : 0 ≤ ⌊pos⌋ := Int.floor_nonneg.2 h0
  exact_mod_cast congrArg (fun z : ℤ => (z : ℚ)) (Int.toNat_of_nonneg h4)

lemma interpAt_frac_nonneg (pos : ℚ) (h0 : 0 ≤ pos) :
    0 ≤ pos - ((⌊pos⌋.toNat : Nat) : ℚ) := by
  rw [floorToNat_cast pos h0]
  linarith [Int.floor_le pos]

lemma interpAt_frac_le_one (pos : ℚ) (h0 : 0 ≤ pos) :
    pos - ((⌊pos⌋.toNat : Nat) : ℚ) ≤ 1 := by
  rw [floorToNat_cast pos h0]
  linarith [Int.lt_floor_add_one pos]

lemma interpAt_eq (s : List ℚ) (pos : ℚ) :
    interpAt s pos = s.getD (⌊pos⌋.toNat) 0 + (pos - ((⌊pos⌋.toNat : Nat) : ℚ)) *
      (s.getD (⌊pos⌋.toNat + 1) (s.getD (⌊pos⌋.toNat) 0) - s.getD (⌊pos⌋.toNat) 0) := rfl

lemma interpAt_eq_left_out (s : List ℚ) (pos : ℚ)
    (hout : s.length ≤ ⌊pos⌋.toNat + 1) : interpAt s pos = s.getD (⌊pos⌋.toNat) 0 := by
  rw [interpAt_eq, List.getD_eq_default s _ hout]
  ring

lemma interpAt_ge_left (s : List ℚ) (hs : List.Sorted (· ≤ ·) s) (pos : ℚ)
    (h0 : 0 ≤ pos) (h1 : pos ≤ (s.length : ℚ) - 1) :
    s.getD (⌊pos⌋.toNat) 0 ≤ interpAt s pos := by
  by_cases hbi : ⌊pos⌋.toNat + 1 < s.length
  · rw [interpAt_eq, getD_default_irrel s _ _ hbi]
    have hab : s.getD (⌊pos⌋.toNat) 0 ≤ s.getD (⌊pos⌋.toNat + 1) 0 :=
      sorted_getD_mono s hs _ _ (Nat.le_succ _) hbi
    nlinarith [interpAt_frac_nonneg pos h0]
  · rw [interpAt_eq_left_out s pos (by omega)]

lemma interpAt_le_right_in (s : List ℚ) (hs : List.Sorted (· ≤ ·) s) (pos : ℚ)
    (h0 : 0 ≤ pos) (hbi : ⌊pos⌋.toNat + 1 < s.length) :
    interpAt s pos ≤ s.getD (⌊pos⌋.toNat + 1) 0 := by
  rw [interpAt_eq, getD_default_irrel s _ _ hbi]
  have hab : s.getD (⌊pos⌋.toNat) 0 ≤ s.getD (⌊pos⌋.toNat + 1) 0 :=
    sorted_getD_mono s hs _ _ (Nat.le_succ _) hbi
  nlinarith [interpAt_frac_le_one pos h0]

lemma interpAt_bounds (s : List ℚ) (hs : List.Sorted (· ≤ ·) s) (pos : ℚ)
    (h0 : 0 ≤ pos) (h1 : pos ≤ (s.length : ℚ) - 1) :
    s.getD 0 0 ≤ interpAt s pos ∧ interpAt s pos ≤ s.getD (s.length - 1) 0 := by
  have hi_lt : ⌊pos⌋.toNat < s.length := floorToNat_lt_of_le pos s.length h0 h1
  constructor
  · exact le_trans (sorted_getD_mono s hs 0 _ (Nat.zero_le _) hi_lt)
      (interpAt_ge_left s hs pos h0 h1)
  · by_cases hbi : ⌊pos⌋.toNat + 1 < s.length
    · exact le_trans (interpAt_le_right_in s hs pos h0 hbi)
        (sorted_getD_mono s hs _ _ (by omega) (by omega))
    · rw [interpAt_eq_left_out s pos (by omega)]
      exact sorted_getD_mono s hs _ _ (by omega) (by omega)

lemma interpAt_mono (s : List ℚ) (hs : List.Sorted (· ≤ ·) s) (p1 p2 : ℚ)
    (h0 : 0 ≤ p1) (h12 : p1 ≤ p2) (h2 : p2 ≤ (s.length : ℚ) - 1) :
    interpAt s p1 ≤ interpAt s p2 := by
  have h0' : 0 ≤ p2 := le_trans h0 h12
  have h1' : p1 ≤ (s.length : ℚ) - 1 := le_trans h12 h2
  have hi2 : ⌊p2⌋.toNat < s.length := floorToNat_lt_of_le p2 s.length h0' h2
  have hii : ⌊p1⌋.toNat ≤ ⌊p2⌋.toNat := Int.toNat_le_toNat (Int.floor_le_floor h12)
  rcases Nat.eq_or_lt_of_le hii with heq | hlt
  · by_cases hbi : ⌊p1⌋.toNat + 1 < s.length
    · rw [interpAt_eq, interpAt_eq, ← heq, getD_default_irrel s _ _ hbi]
      have hab : s.getD (⌊p1⌋.toNat) 0 ≤ s.getD (⌊p1⌋.toNat + 1) 0 :=
        sorted_getD_mono s hs _ _ (Nat.le_succ _) hbi
      nlinarith [sub_nonneg.2 h12]
    · rw [interpAt_eq_left_out s p1 (by omega), interpAt_eq_left_out s p2 (by omega),
        ← heq]
  · calc interpAt s p1 ≤ s.getD (⌊p1⌋.toNat + 1) 0 :=
          interpAt_le_right_in s hs p1 h0 (by omega)
      _ ≤ s.getD (⌊p2⌋.toNat) 0 := sorted_getD_mono s hs _ _ (by omega) hi2
      _ ≤ interpAt s p2 := interpAt_ge_left s hs p2 h0' h2

lemma percentile_pos_nonneg (q : ℚ) (m : Nat) (hq : 0 ≤ q) (hm : 1 ≤ m) :
    0 ≤ q * ((m : ℚ) - 1) / 100 := by
  have h1 : (1 : ℚ) ≤ (m : ℚ) := by exact_mod_cast hm
  apply div_nonneg _ (by norm_num)
  apply mul_nonneg hq
  linarith

lemma percentile_pos_le (q : ℚ) (m : Nat) (hq0 : 0 ≤ q) (hq : q ≤ 100) (hm : 1 ≤ m) :
    q * ((m : ℚ) - 1) / 100 ≤ (m : ℚ) - 1 := by
  have h1 : (1 : ℚ) ≤ (m : ℚ) := by exact_mod_cast hm
  rw [div_le_iff₀ (by norm_num : (0 : ℚ) < 100)]
  nlinarith

lemma percentileSorted_mono_q (s : List ℚ) (hs : List.Sorted (· ≤ ·) s)
    (hne : 1 ≤ s.length) (q1 q2 : ℚ) (h0 : 0 ≤ q1) (h12 : q1 ≤ q2) (h100 : q2 ≤ 100) :
    percentileSorted q1 s ≤ percentileSorted q2 s := by
  unfold percentileSorted
  have h1 : (1 : ℚ) ≤ (s.length : ℚ) := by exact_mod_cast hne
  apply interpAt_mono s hs _ _ (percentile_pos_nonneg q1 s.length h0 hne)
  · have hmul : q1 * ((s.length : ℚ) - 1) ≤ q2 * ((s.length : ℚ) - 1) :=
      mul_le_mul_of_nonneg_right h12 (by linarith)
    linarith
  · exact percentile_pos_le q2 s.length (le_trans h0 h12) h100 hne

lemma sortedVals_sorted (l : List ℚ) : List.Sorted (· ≤ ·) (sortedVals l) :=
  List.sorted_insertionSort _ l

lemma sortedVals_perm (l : List ℚ) : (sortedVals l).Perm l :=
  List.perm_insertionSort _ l

lemma sortedVals_length (l : List ℚ) : (sortedVals l).length = l.length :=
  (sortedVals_perm l).length_eq

/-- C2 counterexample: on input [0, 1] the source returns the pair
(0.95, 0.05) — the 95th percentile first and the 5th percentile second —
whereas the claim demands the pair (low, high) = (0.05, 0.95): the claimed
component order is swapped relative to the code. -/
theorem colourmap_limits_order_counterexample :
    colourmap_limits [some 0, some 1] = some (19/20, 1/20) ∧
    nanpercentile 5 [some 0, some 1] = some (1/20) ∧
    nanpercentile 95 [some 0, some 1] = some (19/20) ∧
    colourmap_limits [some 0, some 1] ≠ some (1/20, 19/20) := by
  have h5 : nanpercentile 5 [some 0, some 1] = some (1/20) := by
    show some (percentileSorted 5 (sortedVals [0, 1])) = some (1/20)
    norm_num [sortedVals, List.insertionSort, List.orderedInsert, percentileSorted,
      interpAt, List.getD_cons_zero, List.getD_cons_succ]
  have h95 : nanpercentile 95 [some 0, some 1] = some (19/20) := by
    show some (percentileSorted 95 (sortedVals [0, 1])) = some (19/20)
    norm_num [sortedVals, List.insertionSort, List.orderedInsert, percentileSorted,
      interpAt, List.getD_cons_zero, List.getD_cons_succ]
  have hcl : colourmap_limits [some 0, some 1] = some (19/20, 1/20) := by
    unfold colourmap_limits
    rw [h5, h95]
  exact ⟨hcl, h5, h95, by rw [hcl]; intro h; simp at h; linarith [h.1]⟩

/-- C2 (amended): `__colourmap_limits` returns the pair (high, low) —
the 95th percentile of the non-NaN values first and the 5th percentile
second (not (low, high) as claimed); for every input with at least one
non-NaN value, low ≤ high and both lie within [min, max] of the non-NaN
values; an all-NaN input yields the NaN pair (embedded as `none`). -/
theorem colourmap_limits_percentile_props :
    (∀ xs : List (Option ℚ), xs.filterMap id = [] → colourmap_limits xs = none) ∧
    (∀ xs : List (Option ℚ), xs.filterMap id ≠ [] →
      colourmap_limits xs =
        some (percentileSorted 95 (sortedVals (xs.filterMap id)),
              percentileSorted 5 (sortedVals (xs.filterMap id))) ∧
      percentileSorted 5 (sortedVals (xs.filterMap id)) ≤
        percentileSorted 95 (sortedVals (xs.filterMap id)) ∧
      listMin (xs.filterMap id) ≤ percentileSorted 5 (sortedVals (xs.filterMap id)) ∧
      percentileSorted 95 (sortedVals (xs.filterMap id)) ≤ listMax (xs.filterMap id)) := by
  constructor
  · intro xs h
    simp only [colourmap_limits, nanpercentile, h]
  · intro xs hne
    cases hl : xs.filterMap id with
    | nil => exact absurd hl hne
    | cons v vs =>
      have hsort := sortedVals_sorted (v :: vs)
      have hlen : 1 ≤ (sortedVals (v :: vs)).length := by
        rw [sortedVals_length]
        simp
      have heq : colourmap_limits xs =
          some (percentileSorted 95 (sortedVals (v :: vs)),
                percentileSorted 5 (sortedVals (v :: vs))) := by
        simp only [colourmap_limits, nanpercentile, hl]
      have hmono := percentileSorted_mono_q (sortedVals (v :: vs)) hsort hlen 5 95
        (by norm_num) (by norm_num) (by norm_num)
      have hb5 := interpAt_bounds (sortedVals (v :: vs)) hsort
        (5 * (((sortedVals (v :: vs)).length : ℚ) - 1) / 100)
        (percentile_pos_nonneg 5 _ (by norm_num) hlen)
        (percentile_pos_le 5 _ (by norm_num) (by norm_num) hlen)
      have hb95 := interpAt_bounds (sortedVals (v :: vs)) hsort
        (95 * (((sortedVals (v :: vs)).length : ℚ) - 1) / 100)
        (percentile_pos_nonneg 95 _ (by norm_num) hlen)
        (percentile_pos_le 95 _ (by norm_num) (by norm_num) hlen)
      have hmem0 : (sortedVals (v :: vs)).getD 0 0 ∈ (v :: vs) :=
        (sortedVals_perm (v :: vs)).subset (getD_mem _ 0 (by omega))
      have hmemL : (sortedVals (v :: vs)).getD ((sortedVals (v :: vs)).length - 1) 0
          ∈ (v :: vs) :=
        (sortedVals_perm (v :: vs)).subset (getD_mem _ _ (by omega))
      refine ⟨heq, hmono, ?_, ?_⟩
      · exact le_trans (listMin_le_mem _ _ hmem0) hb5.1
      · exact le_trans hb95.2 (mem_le_listMax _ _ hmemL)

/-- Witness for C2 at the all-NaN input [NaN] and at the mixed input
[1, NaN, 0]. -/
theorem colourmap_limits_percentile_props_witness :
    colourmap_limits [none] = none ∧
    (colourmap_limits [some 1, none, some 0] =
      some (percentileSorted 95 (sortedVals (List.filterMap id [some 1, none, some 0])),
            percentileSorted 5 (sortedVals (List.filterMap id [some 1, none, some 0]))) ∧
      percentileSorted 5 (sortedVals (List.filterMap id [some 1, none, some 0])) ≤
        percentileSorted 95 (sortedVals (List.filterMap id [some 1, none, some 0])) ∧
      listMin (List.filterMap id [some 1, none, some 0]) ≤
        percentileSorted 5 (sortedVals (List.filterMap id [some 1, none, some 0])) ∧
      percentileSorted 95 (sortedVals (List.filterMap id [some 1, none, some 0])) ≤
        listMax (List.filterMap id [some 1, none, some 0])) :=
  ⟨colourmap_limits_percentile_props.1 [none] rfl,
   colourmap_limits_percentile_props.2 [some 1, none, some 0] (by simp)⟩
